import Mathlib

/-!
Shallow embedding of the CHIP-8 interpreter core of this repository
(the function Chip8::executeCycle in main.cc, identical in semantics to
chip8_t_emulate_cycle in main.c).  Machine bytes are modelled as Nat
values below 256, 16-bit words as Nat values below 65536; every store
into a machine register applies the wraparound of the corresponding C
integer type where the stored expression can exceed it.  The arrays of
the machine (memory, registers, stack, display bit array, key flags)
are modelled as total functions from Nat, read and written exactly at
the indices the source reads and writes.  The call to rand() inside the
Cxkk instruction is modelled by an explicit oracle argument rnd.
-/

set_option maxHeartbeats 1000000

/-- Pointwise update of a function, modelling a single array store. -/
def upd (f : Nat → Nat) (i v : Nat) : Nat → Nat := fun j => if i = j then v else f j

/-- The machine state: the fields of class Chip8 in main.cc. -/
@[ext]
structure Chip8 where
  memory : Nat → Nat
  V : Nat → Nat
  DT : Nat
  ST : Nat
  SP : Nat
  PC : Nat
  I : Nat
  stack : Nat → Nat
  display : Nat → Nat
  draw : Bool
  keys : Nat → Bool

/-- Instruction fetch: two consecutive bytes at PC, big-endian. -/
def fetch (s : Chip8) : Nat := (s.memory s.PC) <<< 8 ||| s.memory (s.PC + 1)

/-- High nibble of an instruction word (the opcode family). -/
def opOf (w : Nat) : Nat := (w &&& 0xF000) >>> 12

/-- Bits 8-11 of an instruction word (register index x). -/
def xOf (w : Nat) : Nat := (w &&& 0x0F00) >>> 8

/-- Bits 4-7 of an instruction word (register index y). -/
def yOf (w : Nat) : Nat := (w &&& 0x00F0) >>> 4

/-- Bits 0-11 of an instruction word (literal address nnn). -/
def nnnOf (w : Nat) : Nat := w &&& 0x0FFF

/-- Bits 0-7 of an instruction word (literal byte kk). -/
def kkOf (w : Nat) : Nat := w &&& 0x00FF

/-- Bits 0-3 of an instruction word (literal nibble n). -/
def nOf (w : Nat) : Nat := w &&& 0x000F

/-- Bit c (most-significant first) of a sprite byte: the expression
bytePxVal of the source. -/
def spriteBit (b c : Nat) : Nat := (b &&& (1 <<< (7 - c))) >>> (7 - c)

/-- The pixel at (row, col) of the packed display bit array: the
expression originalPxVal of the source. -/
def dispBit (d : Nat → Nat) (row col : Nat) : Nat :=
  (d ((row * 64 + col) / 8) &&& (1 <<< (7 - (row * 64 + col) % 8))) >>> (7 - (row * 64 + col) % 8)

/-- One iteration of the inner column loop of the Dxyn draw: XOR the
sprite bit for column offset c into the display and accumulate the
collision flag. -/
def drawPixel (nthByte sc pr c : Nat) (acc : (Nat → Nat) × Nat) : (Nat → Nat) × Nat :=
  let bytePxVal := spriteBit nthByte c
  let pxCol := (sc + c) % 64
  let bitIndex := pr * 64 + pxCol
  let byteIndex := bitIndex / 8
  let dispShamt := 7 - bitIndex % 8
  let originalPxVal := (acc.1 byteIndex &&& (1 <<< dispShamt)) >>> dispShamt
  let newPxVal := originalPxVal ^^^ bytePxVal
  (upd acc.1 byteIndex (acc.1 byteIndex ^^^ (bytePxVal <<< dispShamt)),
   acc.2 ||| (if originalPxVal ≠ 0 ∧ newPxVal = 0 then 1 else 0))

/-- The inner column loop of Dxyn, processing column offsets 0..k-1 in
ascending order. -/
def drawCols (nthByte sc pr : Nat) : Nat → (Nat → Nat) × Nat → (Nat → Nat) × Nat
  | 0, acc => acc
  | k + 1, acc => drawPixel nthByte sc pr k (drawCols nthByte sc pr k acc)

/-- The outer row loop of Dxyn, processing row offsets 0..k-1 in
ascending order; row r uses sprite byte memory(i0 + r) and pixel row
(sr + r) mod 32. -/
def drawRows (mem : Nat → Nat) (i0 sr sc : Nat) : Nat → (Nat → Nat) × Nat → (Nat → Nat) × Nat
  | 0, acc => acc
  | k + 1, acc => drawCols (mem (i0 + k)) sc ((sr + k) % 32) 8 (drawRows mem i0 sr sc k acc)

/-- The key scan loop of Fx0A: for i = 0..k-1, keyPressed accumulates
keys(i), and V(x) is overwritten with i whenever keyPressed is already
true at iteration i. -/
def keyScan (keys : Nat → Bool) (x : Nat) : Nat → (Nat → Nat) × Bool → (Nat → Nat) × Bool
  | 0, acc => acc
  | k + 1, acc =>
    let acc2 := keyScan keys x k acc
    let kp := acc2.2 || keys k
    (upd acc2.1 x (if kp then k else acc2.1 x), kp)

/-- The memcpy of Fx55: memory(i0 + j) := V(j) for j = 0..k-1. -/
def storeRegs (mem V : Nat → Nat) (i0 : Nat) : Nat → Nat → Nat
  | 0 => mem
  | k + 1 => upd (storeRegs mem V i0 k) (i0 + k) (V k)

/-- The memcpy of Fx65: V(j) := memory(i0 + j) for j = 0..k-1. -/
def loadRegs (V mem : Nat → Nat) (i0 : Nat) : Nat → Nat → Nat
  | 0 => V
  | k + 1 => upd (loadRegs V mem i0 k) k (mem (i0 + k))

/-- The timer update at the end of the cycle: DT and ST each decrement
by one if nonzero. -/
def tickTimers (s : Chip8) : Chip8 :=
  { s with DT := if 0 < s.DT then s.DT - 1 else s.DT,
           ST := if 0 < s.ST then s.ST - 1 else s.ST }

/-- The decode-dispatch-execute part of the cycle: everything the
source does before the timer update.  The nested conditionals mirror
the dispatch of the source on the opcode family and its n and kk
refinements. -/
def execInstr (rnd : Nat) (s : Chip8) : Chip8 :=
  let w := fetch s
  let op := opOf w
  let x := xOf w
  let y := yOf w
  let nnn := nnnOf w
  let kk := kkOf w
  let n := nOf w
  let pc2 := (s.PC + 2) % 65536
  if op = 0 then
    (if n = 0 then { s with display := fun _ => 0, draw := true, PC := pc2 }
     else if n = 0xE then
       let sp1 := (s.SP + 255) % 256
       { s with SP := sp1, PC := (s.stack sp1 + 2) % 65536 }
     else s)
  else if op = 1 then { s with PC := nnn }
  else if op = 2 then
    { s with stack := upd s.stack s.SP (s.PC % 65536), SP := (s.SP + 1) % 256, PC := nnn }
  else if op = 3 then { s with PC := (s.PC + if s.V x = kk then 4 else 2) % 65536 }
  else if op = 4 then { s with PC := (s.PC + if s.V x = kk then 2 else 4) % 65536 }
  else if op = 5 then { s with PC := (s.PC + if s.V x = s.V y then 4 else 2) % 65536 }
  else if op = 6 then { s with V := upd s.V x kk, PC := pc2 }
  else if op = 7 then { s with V := upd s.V x ((s.V x + kk) % 256), PC := pc2 }
  else if op = 8 then
    (if n = 0 then { s with V := upd s.V x (s.V y), PC := pc2 }
     else if n = 1 then { s with V := upd s.V x (s.V x ||| s.V y), PC := pc2 }
     else if n = 2 then { s with V := upd s.V x (s.V x &&& s.V y), PC := pc2 }
     else if n = 3 then { s with V := upd s.V x (s.V x ^^^ s.V y), PC := pc2 }
     else if n = 4 then
       let v2 := upd s.V 15 (if 255 < s.V x + s.V y then 1 else 0)
       { s with V := upd v2 x ((v2 x + v2 y) % 256), PC := pc2 }
     else if n = 5 then
       let v2 := upd s.V 15 (if s.V y < s.V x then 1 else 0)
       { s with V := upd v2 x ((v2 x + 256 - v2 y % 256) % 256), PC := pc2 }
     else if n = 6 then
       let v2 := upd s.V 15 (s.V x &&& 1)
       { s with V := upd v2 x (v2 x >>> 1), PC := pc2 }
     else if n = 7 then
       let v2 := upd s.V 15 (if s.V x < s.V y then 1 else 0)
       { s with V := upd v2 x ((v2 y + 256 - v2 x % 256) % 256), PC := pc2 }
     else if n = 0xE then
       let v2 := upd s.V 15 (s.V x >>> 7)
       { s with V := upd v2 x ((v2 x <<< 1) % 256), PC := pc2 }
     else s)
  else if op = 9 then { s with PC := (s.PC + if s.V x = s.V y then 2 else 4) % 65536 }
  else if op = 0xA then { s with I := nnn, PC := pc2 }
  else if op = 0xB then { s with PC := (nnn + s.V 0) % 65536 }
  else if op = 0xC then { s with V := upd s.V x ((rnd % 256) &&& kk), PC := pc2 }
  else if op = 0xD then
    let v1 := upd s.V 15 0
    let sc := v1 x
    let sr := v1 y
    let res := drawRows s.memory s.I sr sc n (s.display, 0)
    { s with display := res.1, V := upd v1 15 res.2, draw := true, PC := pc2 }
  else if op = 0xE then
    (if kk = 0x9E then { s with PC := (s.PC + if s.keys (s.V x) then 4 else 2) % 65536 }
     else if kk = 0xA1 then { s with PC := (s.PC + if s.keys (s.V x) then 2 else 4) % 65536 }
     else s)
  else if op = 0xF then
    (if kk = 0x07 then { s with V := upd s.V x s.DT, PC := pc2 }
     else if kk = 0x0A then
       let scan := keyScan s.keys x 16 (s.V, false)
       (if scan.2 then { s with V := scan.1, PC := pc2 } else { s with V := scan.1 })
     else if kk = 0x15 then { s with DT := s.V x, PC := pc2 }
     else if kk = 0x18 then { s with ST := s.V x, PC := pc2 }
     else if kk = 0x1E then
       let v2 := upd s.V 15 (if 0xFFF < s.I + s.V x then 1 else 0)
       { s with V := v2, I := (s.I + v2 x) % 65536, PC := pc2 }
     else if kk = 0x29 then { s with I := (5 * s.V x) % 65536, PC := pc2 }
     else if kk = 0x33 then
       { s with memory := upd (upd (upd s.memory s.I (s.V x / 100))
                  (s.I + 1) (s.V x / 10 % 10)) (s.I + 2) (s.V x % 10),
                PC := pc2 }
     else if kk = 0x55 then
       { s with memory := storeRegs s.memory s.V s.I (x + 1),
                I := (s.I + (x + 1)) % 65536, PC := pc2 }
     else if kk = 0x65 then
       { s with V := loadRegs s.V s.memory s.I (x + 1),
                I := (s.I + (x + 1)) % 65536, PC := pc2 }
     else s)
  else s

/-- The condition of the early return inside Fx0A: the fetched
instruction is Fx0A and the key scan found no key pressed.  Exactly in
this case the source returns before the timer update. -/
def waitingNoKey (s : Chip8) : Bool :=
  decide (opOf (fetch s) = 0xF) && decide (kkOf (fetch s) = 0x0A)
    && !(keyScan s.keys (xOf (fetch s)) 16 (s.V, false)).2

/-- One full interpreter cycle (the function executeCycle of the
source): decode and execute the fetched instruction, then update the
timers, except that an Fx0A that finds no key pressed returns before
the timer update. -/
def executeCycle (rnd : Nat) (s : Chip8) : Chip8 :=
  if waitingNoKey s then execInstr rnd s else tickTimers (execInstr rnd s)

/-- The cumulative XOR mask that the inner column loop applies to
display byte j: mirror of drawCols at the level of masks. -/
def colsMask (nthByte sc pr : Nat) : Nat → Nat → Nat
  | 0, _ => 0
  | k + 1, j =>
    colsMask nthByte sc pr k j ^^^
      (if (pr * 64 + (sc + k) % 64) / 8 = j then
        spriteBit nthByte k <<< (7 - (pr * 64 + (sc + k) % 64) % 8) else 0)

/-- The cumulative XOR mask that the whole draw applies to display
byte j: mirror of drawRows at the level of masks. -/
def rowsMask (mem : Nat → Nat) (i0 sr sc : Nat) : Nat → Nat → Nat
  | 0, _ => 0
  | k + 1, j => rowsMask mem i0 sr sc k j ^^^ colsMask (mem (i0 + k)) sc ((sr + k) % 32) 8 j

/-- Collision indicator of the inner column loop relative to a fixed
display d: 1 iff some column offset below k has both its display pixel
and its sprite bit set. -/
def colsColl (d : Nat → Nat) (nthByte sc pr : Nat) : Nat → Nat
  | 0 => 0
  | k + 1 => colsColl d nthByte sc pr k |||
      (if dispBit d pr ((sc + k) % 64) = 1 ∧ spriteBit nthByte k = 1 then 1 else 0)

/-- Collision indicator of the whole draw relative to a fixed
display d. -/
def rowsColl (mem : Nat → Nat) (i0 : Nat) (d : Nat → Nat) (sr sc : Nat) : Nat → Nat
  | 0 => 0
  | k + 1 => rowsColl mem i0 d sr sc k ||| colsColl d (mem (i0 + k)) sc ((sr + k) % 32) 8

/-- Modelled from the spec: the set of defined opcode patterns, taken
from the canonical opcode table of the specification (section 4.2).
An instruction word is spec-defined iff it matches one of the rows of
that table; 00E0 and 00EE are exact words, 5xy0 and 9xy0 require the
low nibble to be 0, family 8 requires n in 0..7 or E, families E and F
require the listed kk values. -/
def specDefinedOpcode (w : Nat) : Bool :=
  decide (w = 0x00E0) || decide (w = 0x00EE) ||
  decide (opOf w = 1) || decide (opOf w = 2) ||
  decide (opOf w = 3) || decide (opOf w = 4) ||
  (decide (opOf w = 5) && decide (nOf w = 0)) ||
  decide (opOf w = 6) || decide (opOf w = 7) ||
  (decide (opOf w = 8) && (decide (nOf w ≤ 7) || decide (nOf w = 0xE))) ||
  (decide (opOf w = 9) && decide (nOf w = 0)) ||
  decide (opOf w = 0xA) || decide (opOf w = 0xB) ||
  decide (opOf w = 0xC) || decide (opOf w = 0xD) ||
  (decide (opOf w = 0xE) && (decide (kkOf w = 0x9E) || decide (kkOf w = 0xA1))) ||
  (decide (opOf w = 0xF) &&
    (decide (kkOf w = 0x07) || decide (kkOf w = 0x0A) || decide (kkOf w = 0x15) ||
     decide (kkOf w = 0x18) || decide (kkOf w = 0x1E) || decide (kkOf w = 0x29) ||
     decide (kkOf w = 0x33) || decide (kkOf w = 0x55) || decide (kkOf w = 0x65)))

/-- The instruction words on which the nested dispatch of the source falls
through every branch, executing nothing at all. -/
def codeFallsThrough (w : Nat) : Bool :=
  (decide (opOf w = 0) && !decide (nOf w = 0) && !decide (nOf w = 0xE)) ||
  (decide (opOf w = 8) && !decide (nOf w ≤ 7) && !decide (nOf w = 0xE)) ||
  (decide (opOf w = 0xE) && !decide (kkOf w = 0x9E) && !decide (kkOf w = 0xA1)) ||
  (decide (opOf w = 0xF) &&
    !decide (kkOf w = 0x07) && !decide (kkOf w = 0x0A) && !decide (kkOf w = 0x15) &&
    !decide (kkOf w = 0x18) && !decide (kkOf w = 0x1E) && !decide (kkOf w = 0x29) &&
    !decide (kkOf w = 0x33) && !decide (kkOf w = 0x55) && !decide (kkOf w = 0x65))

/-- Equality of two machine states on every field except memory. -/
def sameExceptMemory (a b : Chip8) : Prop :=
  a.V = b.V ∧ a.DT = b.DT ∧ a.ST = b.ST ∧ a.SP = b.SP ∧ a.PC = b.PC ∧
  a.I = b.I ∧ a.stack = b.stack ∧ a.display = b.display ∧ a.draw = b.draw ∧
  a.keys = b.keys

/-- A base machine state with everything zeroed and PC at 0x200. -/
def baseState : Chip8 :=
  { memory := fun _ => 0, V := fun _ => 0, DT := 0, ST := 0, SP := 0,
    PC := 0x200, I := 0, stack := fun _ => 0, display := fun _ => 0,
    draw := false, keys := fun _ => false }

/-- Finite association-list memory: zeros except the listed entries. -/
def mkMem (l : List (Nat × Nat)) : Nat → Nat :=
  l.foldl (fun f p => upd f p.1 p.2) (fun _ => 0)

/-- Dxyn with x = 0xF: instruction D F 0 1 at PC, V15 = 1, one sprite
byte 0x80 at I = 0x300. -/
def c1cx : Chip8 := { baseState with
  memory := mkMem [(0x200, 0xDF), (0x201, 0x01), (0x300, 0x80)],
  V := mkMem [(15, 1)], I := 0x300 }

/-- Dxyn witness state: instruction D121 at PC, V1 = 3, V2 = 5, one
sprite byte 0xA0 at I = 0x250. -/
def c1w : Chip8 := { baseState with
  memory := mkMem [(0x200, 0xD1), (0x201, 0x21), (0x250, 0xA0)],
  V := mkMem [(1, 3), (2, 5)], I := 0x250 }

/-- 8xy4 with x = 0xF: instruction 8F04 at PC, V15 = 200, V0 = 100. -/
def c2cx : Chip8 := { baseState with
  memory := mkMem [(0x200, 0x8F), (0x201, 0x04)], V := mkMem [(15, 200), (0, 100)] }

/-- 8xy4 witness state: instruction 8124 at PC, V1 = 200, V2 = 100. -/
def c2w : Chip8 := { baseState with
  memory := mkMem [(0x200, 0x81), (0x201, 0x24)], V := mkMem [(1, 200), (2, 100)] }

/-- Fx0A with no key pressed and nonzero timers. -/
def c3cx : Chip8 := { baseState with
  memory := mkMem [(0x200, 0xF0), (0x201, 0x0A)], DT := 5, ST := 7 }

/-- An ordinary instruction (6105) with nonzero DT. -/
def c3w : Chip8 := { baseState with
  memory := mkMem [(0x200, 0x61), (0x201, 0x05)], DT := 3, ST := 0 }

/-- Fx0A with exactly key 3 pressed. -/
def c4bug : Chip8 := { baseState with
  memory := mkMem [(0x200, 0xF0), (0x201, 0x0A)], keys := fun i => i == 3 }

/-- The same Dxyn instruction (D001) at PC and at PC + 2, one sprite
byte 0x80 at I = 0x300, empty display. -/
def c5cx : Chip8 := { baseState with
  memory := mkMem [(0x200, 0xD0), (0x201, 0x01), (0x202, 0xD0), (0x203, 0x01), (0x300, 0x80)],
  I := 0x300 }

/-- A 2nnn call to 0x300 whose target holds 00EE, with SP = 2. -/
def c6w : Chip8 := { baseState with
  memory := mkMem [(0x200, 0x23), (0x201, 0x00), (0x300, 0x00), (0x301, 0xEE)], SP := 2 }

/-- Instruction 5121 (op 5 with nonzero low nibble) with V1 = V2. -/
def c7cx : Chip8 := { baseState with memory := mkMem [(0x200, 0x51), (0x201, 0x21)] }

/-- Instruction 8129 (family 8 with undefined n = 9) with DT = 3. -/
def c7w : Chip8 := { baseState with
  memory := mkMem [(0x200, 0x81), (0x201, 0x29)], DT := 3 }

/-- Fx1E with x = 0xF: instruction FF1E at PC, V15 = 0x50, I = 0x100. -/
def c8cx : Chip8 := { baseState with
  memory := mkMem [(0x200, 0xFF), (0x201, 0x1E)], V := mkMem [(15, 0x50)], I := 0x100 }

/-- Fx1E witness state: instruction F11E at PC, V1 = 0x50, I = 0x100. -/
def c8w : Chip8 := { baseState with
  memory := mkMem [(0x200, 0xF1), (0x201, 0x1E)], V := mkMem [(1, 0x50)], I := 0x100 }

/-- Fx0A with no key pressed and DT = 5. -/
def c9w : Chip8 := { baseState with
  memory := mkMem [(0x200, 0xF0), (0x201, 0x0A)], DT := 5 }

/-- 8xy6 with x = 0xF: instruction 8F26 at PC, V15 = 3. -/
def c10cx : Chip8 := { baseState with
  memory := mkMem [(0x200, 0x8F), (0x201, 0x26)], V := mkMem [(15, 3)] }

/-- Instruction 8126 (SHR, y = 2) with V1 = 5. -/
def c10a : Chip8 := { baseState with
  memory := mkMem [(0x200, 0x81), (0x201, 0x26)], V := mkMem [(1, 5)] }

/-- Instruction 8136 (SHR, y = 3) with V1 = 5: same state as c10a
except the instruction byte. -/
def c10b : Chip8 := { baseState with
  memory := mkMem [(0x200, 0x81), (0x201, 0x36)], V := mkMem [(1, 5)] }

/-- Instruction 812E (SHL, y = 2) with V1 = 0x90. -/
def c10c : Chip8 := { baseState with
  memory := mkMem [(0x200, 0x81), (0x201, 0x2E)], V := mkMem [(1, 0x90)] }

theorem toNat_le_one (b : Bool) : b.toNat ≤ 1 := by cases b <;> decide

theorem toNat_eq_zero_or_one (b : Bool) : b.toNat = 0 ∨ b.toNat = 1 := by cases b <;> simp

theorem extractBit_eq (b k : Nat) : (b &&& (1 <<< k)) >>> k = (b.testBit k).toNat := by
  rw [Nat.one_shiftLeft, Nat.and_two_pow, Nat.shiftRight_eq_div_pow]
  exact Nat.mul_div_cancel _ (Nat.two_pow_pos k)

theorem spriteBit_le_one (b c : Nat) : spriteBit b c ≤ 1 := by
  rw [spriteBit, extractBit_eq]; exact toNat_le_one _

theorem dispBit_le_one (d : Nat → Nat) (row col : Nat) : dispBit d row col ≤ 1 := by
  rw [dispBit, extractBit_eq]; exact toNat_le_one _

theorem dispBit_congr (d1 d2 : Nat → Nat) (row col : Nat)
    (h : d1 ((row * 64 + col) / 8) = d2 ((row * 64 + col) / 8)) :
    dispBit d1 row col = dispBit d2 row col := by
  rw [dispBit, dispBit, h]

theorem extract_xor_single (b v q p : Nat) (hv : v ≤ 1) :
    ((b ^^^ v <<< q) &&& (1 <<< p)) >>> p
      = if p = q then ((b &&& (1 <<< p)) >>> p) ^^^ v else (b &&& (1 <<< p)) >>> p := by
  rcases Nat.le_one_iff_eq_zero_or_eq_one.mp hv with h | h
  · subst h
    rw [Nat.zero_shiftLeft, Nat.xor_zero]
    by_cases hpq : p = q
    · rw [if_pos hpq, Nat.xor_zero]
    · rw [if_neg hpq]
  · subst h
    rw [extractBit_eq, extractBit_eq, Nat.testBit_xor]
    have h1 : Nat.testBit (1 <<< q) p = decide (p = q) := by
      rw [Nat.one_shiftLeft]
      by_cases hpq : p = q
      · subst hpq; simp [Nat.testBit_two_pow_self]
      · rw [Nat.testBit_two_pow_of_ne (fun hq => hpq hq.symm)]
        simp [hpq]
    rw [h1]
    by_cases hpq : p = q
    · rw [if_pos hpq]
      subst hpq
      cases hb : b.testBit p <;> simp [hb]
    · rw [if_neg hpq]
      simp [hpq]

theorem dispBit_upd_write (d : Nat → Nat) (pr t v r c : Nat) (hv : v ≤ 1)
    (hr : r < 32) (hc : c < 64) (hpr : pr < 32) (ht : t < 64) :
    dispBit (upd d ((pr * 64 + t) / 8)
        (d ((pr * 64 + t) / 8) ^^^ v <<< (7 - (pr * 64 + t) % 8))) r c
      = if r = pr ∧ c = t then dispBit d r c ^^^ v else dispBit d r c := by
  simp only [dispBit, upd]
  by_cases hB : (pr * 64 + t) / 8 = (r * 64 + c) / 8
  · rw [if_pos hB]
    rw [extract_xor_single _ _ _ _ hv]
    have hd : d ((pr * 64 + t) / 8) = d ((r * 64 + c) / 8) := by rw [hB]
    by_cases hpq : 7 - (r * 64 + c) % 8 = 7 - (pr * 64 + t) % 8
    · have heq : r = pr ∧ c = t := by omega
      rw [if_pos hpq, if_pos heq, hd]
    · have hne : ¬(r = pr ∧ c = t) := by omega
      rw [if_neg hpq, if_neg hne, hd]
  · rw [if_neg hB]
    have hne : ¬(r = pr ∧ c = t) := by omega
    rw [if_neg hne]

theorem drawPixel_fst (nthByte sc pr c : Nat) (acc : (Nat → Nat) × Nat) :
    (drawPixel nthByte sc pr c acc).1
      = upd acc.1 ((pr * 64 + (sc + c) % 64) / 8)
          (acc.1 ((pr * 64 + (sc + c) % 64) / 8)
            ^^^ spriteBit nthByte c <<< (7 - (pr * 64 + (sc + c) % 64) % 8)) := rfl

theorem drawPixel_snd (nthByte sc pr c : Nat) (acc : (Nat → Nat) × Nat) :
    (drawPixel nthByte sc pr c acc).2
      = acc.2 ||| (if dispBit acc.1 pr ((sc + c) % 64) ≠ 0 ∧
            dispBit acc.1 pr ((sc + c) % 64) ^^^ spriteBit nthByte c = 0 then 1 else 0) := rfl

theorem drawCols_frame (nthByte sc pr : Nat) (k : Nat) (acc : (Nat → Nat) × Nat) (j : Nat)
    (hj : j / 8 ≠ pr) : (drawCols nthByte sc pr k acc).1 j = acc.1 j := by
  induction k with
  | zero => rfl
  | succ k ih =>
    simp only [drawCols, drawPixel_fst, upd]
    rw [if_neg (by intro heq; apply hj; omega)]
    exact ih

theorem drawCols_pixel (nthByte sc pr : Nat) (hpr : pr < 32) (k : Nat)
    (acc : (Nat → Nat) × Nat) (c : Nat) :
    k ≤ 8 → c < 8 →
    dispBit (drawCols nthByte sc pr k acc).1 pr ((sc + c) % 64)
      = if c < k then dispBit acc.1 pr ((sc + c) % 64) ^^^ spriteBit nthByte c
        else dispBit acc.1 pr ((sc + c) % 64) := by
  induction k with
  | zero => intro _ _; rw [if_neg (by omega)]; rfl
  | succ k ih =>
    intro hk hc
    simp only [drawCols, drawPixel_fst]
    rw [dispBit_upd_write _ _ _ _ _ _ (spriteBit_le_one nthByte k) hpr
      (Nat.mod_lt _ (by omega)) hpr (Nat.mod_lt _ (by omega))]
    rw [ih (by omega) hc]
    by_cases hck : c = k
    · subst hck
      rw [if_pos ⟨rfl, rfl⟩, if_neg (by omega), if_pos (by omega)]
    · have h2 : ¬(pr = pr ∧ (sc + c) % 64 = (sc + k) % 64) := by
        intro h
        exact hck (by omega)
      rw [if_neg h2]
      by_cases h3 : c < k
      · rw [if_pos h3, if_pos (by omega)]
      · rw [if_neg h3, if_neg (by omega)]

theorem lor_le_one (a b : Nat) (ha : a ≤ 1) (hb : b ≤ 1) : a ||| b ≤ 1 := by
  interval_cases a <;> interval_cases b <;> decide

theorem lor_eq_one_iff (a b : Nat) (ha : a ≤ 1) (hb : b ≤ 1) :
    a ||| b = 1 ↔ a = 1 ∨ b = 1 := by
  interval_cases a <;> interval_cases b <;> simp

theorem colsColl_le_one (d : Nat → Nat) (nthByte sc pr k : Nat) :
    colsColl d nthByte sc pr k ≤ 1 := by
  induction k with
  | zero => exact Nat.zero_le 1
  | succ k ih =>
    refine lor_le_one _ _ ih ?_
    split <;> omega

theorem rowsColl_le_one (mem : Nat → Nat) (i0 : Nat) (d : Nat → Nat) (sr sc k : Nat) :
    rowsColl mem i0 d sr sc k ≤ 1 := by
  induction k with
  | zero => exact Nat.zero_le 1
  | succ k ih => exact lor_le_one _ _ ih (colsColl_le_one _ _ _ _ _)

theorem colsColl_congr (d1 d2 : Nat → Nat) (nthByte sc pr k : Nat)
    (h : ∀ c, c < k → dispBit d1 pr ((sc + c) % 64) = dispBit d2 pr ((sc + c) % 64)) :
    colsColl d1 nthByte sc pr k = colsColl d2 nthByte sc pr k := by
  induction k with
  | zero => rfl
  | succ k ih =>
    simp only [colsColl]
    rw [ih (fun c hc => h c (by omega)), h k (by omega)]

theorem drawCols_vf (nthByte sc pr : Nat) (hpr : pr < 32) (k : Nat)
    (acc : (Nat → Nat) × Nat) :
    k ≤ 8 →
    (drawCols nthByte sc pr k acc).2 = acc.2 ||| colsColl acc.1 nthByte sc pr k := by
  induction k with
  | zero => intro _; exact (Nat.or_zero _).symm
  | succ k ih =>
    intro hk
    simp only [drawCols, drawPixel_snd, colsColl]
    rw [ih (by omega)]
    rw [drawCols_pixel nthByte sc pr hpr k acc k (by omega) (by omega)]
    rw [if_neg (show ¬(k < k) by omega)]
    rw [Nat.lor_assoc]
    have hbit : (if dispBit acc.1 pr ((sc + k) % 64) ≠ 0 ∧
          dispBit acc.1 pr ((sc + k) % 64) ^^^ spriteBit nthByte k = 0 then 1 else 0)
        = (if dispBit acc.1 pr ((sc + k) % 64) = 1 ∧ spriteBit nthByte k = 1 then 1 else 0) := by
      have h1 := dispBit_le_one acc.1 pr ((sc + k) % 64)
      have h2 := spriteBit_le_one nthByte k
      interval_cases h3 : dispBit acc.1 pr ((sc + k) % 64) <;>
        interval_cases h4 : spriteBit nthByte k <;> simp
    rw [hbit]

theorem drawRows_frame (mem : Nat → Nat) (i0 sr sc : Nat) (k : Nat)
    (acc : (Nat → Nat) × Nat) (j : Nat)
    (hj : ∀ r, r < k → j / 8 ≠ (sr + r) % 32) :
    (drawRows mem i0 sr sc k acc).1 j = acc.1 j := by
  induction k with
  | zero => rfl
  | succ k ih =>
    simp only [drawRows]
    rw [drawCols_frame _ _ _ _ _ _ (hj k (by omega))]
    exact ih (fun r hr => hj r (by omega))

theorem drawRows_pixel (mem : Nat → Nat) (i0 sr sc : Nat) (k : Nat)
    (acc : (Nat → Nat) × Nat) (r c : Nat) :
    k ≤ 16 → r < k → c < 8 →
    dispBit (drawRows mem i0 sr sc k acc).1 ((sr + r) % 32) ((sc + c) % 64)
      = dispBit acc.1 ((sr + r) % 32) ((sc + c) % 64) ^^^ spriteBit (mem (i0 + r)) c := by
  induction k with
  | zero => intro _ hr _; omega
  | succ k ih =>
    intro hk hr hc
    simp only [drawRows]
    by_cases hrk : r = k
    · subst hrk
      rw [drawCols_pixel _ _ _ (Nat.mod_lt _ (by omega)) 8 _ c (by omega) hc]
      rw [if_pos hc]
      have hbyte : (drawRows mem i0 sr sc r acc).1
            (((sr + r) % 32 * 64 + (sc + c) % 64) / 8)
          = acc.1 (((sr + r) % 32 * 64 + (sc + c) % 64) / 8) := by
        refine drawRows_frame mem i0 sr sc r acc _ (fun q hq => ?_)
        omega
      rw [dispBit_congr _ _ _ _ hbyte]
    · have hrow : (sr + r) % 32 ≠ (sr + k) % 32 := by omega
      have hbyte2 : dispBit (drawCols (mem (i0 + k)) sc ((sr + k) % 32) 8
            (drawRows mem i0 sr sc k acc)).1 ((sr + r) % 32) ((sc + c) % 64)
          = dispBit (drawRows mem i0 sr sc k acc).1 ((sr + r) % 32) ((sc + c) % 64) := by
        refine dispBit_congr _ _ _ _ ?_
        refine drawCols_frame _ _ _ _ _ _ ?_
        omega
      rw [hbyte2]
      exact ih (by omega) (by omega) hc

theorem drawRows_vf (mem : Nat → Nat) (i0 sr sc : Nat) (k : Nat)
    (acc : (Nat → Nat) × Nat) :
    k ≤ 16 →
    (drawRows mem i0 sr sc k acc).2 = acc.2 ||| rowsColl mem i0 acc.1 sr sc k := by
  induction k with
  | zero => intro _; exact (Nat.or_zero _).symm
  | succ k ih =>
    intro hk
    simp only [drawRows, rowsColl]
    rw [drawCols_vf _ _ _ (Nat.mod_lt _ (by omega)) 8 _ (by omega)]
    rw [ih (by omega)]
    rw [Nat.lor_assoc]
    have hcc : colsColl (drawRows mem i0 sr sc k acc).1 (mem (i0 + k)) sc ((sr + k) % 32) 8
        = colsColl acc.1 (mem (i0 + k)) sc ((sr + k) % 32) 8 := by
      refine colsColl_congr _ _ _ _ _ _ (fun c hc => ?_)
      refine dispBit_congr _ _ _ _ ?_
      refine drawRows_frame mem i0 sr sc k acc _ (fun q hq => ?_)
      omega
    rw [hcc]

theorem drawCols_mask (nthByte sc pr : Nat) (k : Nat) (acc : (Nat → Nat) × Nat) (j : Nat) :
    (drawCols nthByte sc pr k acc).1 j = acc.1 j ^^^ colsMask nthByte sc pr k j := by
  induction k with
  | zero => exact (Nat.xor_zero _).symm
  | succ k ih =>
    simp only [drawCols, drawPixel_fst, colsMask, upd]
    by_cases hB : (pr * 64 + (sc + k) % 64) / 8 = j
    · rw [if_pos hB, if_pos hB]
      subst hB
      rw [ih, Nat.xor_assoc]
    · rw [if_neg hB, if_neg hB]
      rw [ih, Nat.xor_zero]

theorem drawRows_mask (mem : Nat → Nat) (i0 sr sc : Nat) (k : Nat)
    (acc : (Nat → Nat) × Nat) (j : Nat) :
    (drawRows mem i0 sr sc k acc).1 j = acc.1 j ^^^ rowsMask mem i0 sr sc k j := by
  induction k with
  | zero => exact (Nat.xor_zero _).symm
  | succ k ih =>
    simp only [drawRows, rowsMask]
    rw [drawCols_mask, ih, Nat.xor_assoc]

theorem colsColl_eq_one_iff (d : Nat → Nat) (nthByte sc pr k : Nat) :
    colsColl d nthByte sc pr k = 1
      ↔ ∃ c, c < k ∧ dispBit d pr ((sc + c) % 64) = 1 ∧ spriteBit nthByte c = 1 := by
  induction k with
  | zero =>
    simp only [colsColl]
    constructor
    · intro h; omega
    · intro h; omega
  | succ k ih =>
    simp only [colsColl]
    rw [lor_eq_one_iff _ _ (colsColl_le_one _ _ _ _ _) (by split <;> omega)]
    rw [ih]
    constructor
    · intro h
      rcases h with h | h
      · rcases h with ⟨c, hc, h1, h2⟩
        exact ⟨c, by omega, h1, h2⟩
      · by_cases hcond : dispBit d pr ((sc + k) % 64) = 1 ∧ spriteBit nthByte k = 1
        · exact ⟨k, by omega, hcond.1, hcond.2⟩
        · rw [if_neg hcond] at h; omega
    · intro h
      rcases h with ⟨c, hc, h1, h2⟩
      by_cases hck : c = k
      · subst hck
        right
        rw [if_pos ⟨h1, h2⟩]
      · left
        exact ⟨c, by omega, h1, h2⟩

theorem rowsColl_eq_one_iff (mem : Nat → Nat) (i0 : Nat) (d : Nat → Nat) (sr sc k : Nat) :
    rowsColl mem i0 d sr sc k = 1
      ↔ ∃ r, r < k ∧ ∃ c, c < 8 ∧ dispBit d ((sr + r) % 32) ((sc + c) % 64) = 1 ∧
          spriteBit (mem (i0 + r)) c = 1 := by
  induction k with
  | zero =>
    simp only [rowsColl]
    constructor
    · intro h; omega
    · intro h; omega
  | succ k ih =>
    simp only [rowsColl]
    rw [lor_eq_one_iff _ _ (rowsColl_le_one _ _ _ _ _ _) (colsColl_le_one _ _ _ _ _)]
    rw [ih, colsColl_eq_one_iff]
    constructor
    · intro h
      rcases h with h | h
      · rcases h with ⟨r, hr, hrest⟩
        exact ⟨r, by omega, hrest⟩
      · rcases h with ⟨c, hc, h1, h2⟩
        exact ⟨k, by omega, c, hc, h1, h2⟩
    · intro h
      rcases h with ⟨r, hr, hrest⟩
      by_cases hrk : r = k
      · subst hrk
        exact Or.inr hrest
      · exact Or.inl ⟨r, by omega, hrest⟩

theorem upd15zero (V : Nat → Nat) (x : Nat) : upd V 15 0 x = if x = 15 then 0 else V x := by
  simp only [upd]
  by_cases h : x = 15
  · rw [if_pos h.symm, if_pos h]
  · rw [if_neg (fun hh => h hh.symm), if_neg h]

theorem executeCycle_draw (rnd : Nat) (s : Chip8) (hop : opOf (fetch s) = 13) :
    executeCycle rnd s = tickTimers { s with
      display := (drawRows s.memory s.I (upd s.V 15 0 (yOf (fetch s)))
        (upd s.V 15 0 (xOf (fetch s))) (nOf (fetch s)) (s.display, 0)).1,
      V := upd (upd s.V 15 0) 15 ((drawRows s.memory s.I (upd s.V 15 0 (yOf (fetch s)))
        (upd s.V 15 0 (xOf (fetch s))) (nOf (fetch s)) (s.display, 0)).2),
      draw := true,
      PC := (s.PC + 2) % 65536 } := by
  have hw : waitingNoKey s = false := by simp [waitingNoKey, hop]
  simp [executeCycle, hw, execInstr, hop]

/-- C1 is refuted: for the Dxyn coordinate bases the code reads V(x)
and V(y) only after zeroing V(0xF), so with x = 0xF the column base is
0, not the pre-instruction V(0xF).  At c1cx (instruction DF01, V15 = 1,
sprite byte 0x80, I + n within 4096) the pixel the claim designates,
column (V(0xF) + 0) mod 64 = 1 of row 0, does not receive the sprite
bit. -/
theorem C1_counterexample :
    opOf (fetch c1cx) = 13 ∧ c1cx.I + nOf (fetch c1cx) ≤ 4096 ∧
    dispBit (executeCycle 0 c1cx).display ((c1cx.V (yOf (fetch c1cx)) + 0) % 32)
        ((c1cx.V (xOf (fetch c1cx)) + 0) % 64)
      ≠ dispBit c1cx.display ((c1cx.V (yOf (fetch c1cx)) + 0) % 32)
          ((c1cx.V (xOf (fetch c1cx)) + 0) % 64)
        ^^^ spriteBit (c1cx.memory (c1cx.I + 0)) 0 := by decide

/-- C1 (amended): for a fetched Dxyn with all n sprite bytes
addressable, executeCycle XORs, for each of the n rows and 8 columns,
sprite bit (row, col) into the display pixel at row (base_y + row)
mod 32, column (base_x + col) mod 64, where base_x and base_y are V(x)
and V(y) as read after V(0xF) has been zeroed (so base 0 when x or y
is 0xF); V(0xF) ends 1 iff some drawn pixel was on and its sprite bit
set (an on-to-off transition), else 0; the draw flag is set
unconditionally; PC advances by 2. -/
theorem C1_amended (rnd : Nat) (s : Chip8)
    (hop : opOf (fetch s) = 13)
    (haddr : s.I + nOf (fetch s) ≤ 4096) :
    (∀ r, r < nOf (fetch s) → ∀ c, c < 8 →
      dispBit (executeCycle rnd s).display
          (((if yOf (fetch s) = 15 then 0 else s.V (yOf (fetch s))) + r) % 32)
          (((if xOf (fetch s) = 15 then 0 else s.V (xOf (fetch s))) + c) % 64)
        = dispBit s.display
            (((if yOf (fetch s) = 15 then 0 else s.V (yOf (fetch s))) + r) % 32)
            (((if xOf (fetch s) = 15 then 0 else s.V (xOf (fetch s))) + c) % 64)
          ^^^ spriteBit (s.memory (s.I + r)) c)
    ∧ ((executeCycle rnd s).V 15 = 0 ∨ (executeCycle rnd s).V 15 = 1)
    ∧ ((executeCycle rnd s).V 15 = 1 ↔
        ∃ r, r < nOf (fetch s) ∧ ∃ c, c < 8 ∧
          dispBit s.display
              (((if yOf (fetch s) = 15 then 0 else s.V (yOf (fetch s))) + r) % 32)
              (((if xOf (fetch s) = 15 then 0 else s.V (xOf (fetch s))) + c) % 64) = 1
          ∧ spriteBit (s.memory (s.I + r)) c = 1)
    ∧ (executeCycle rnd s).draw = true
    ∧ (executeCycle rnd s).PC = (s.PC + 2) % 65536 := by
  have hn16 : nOf (fetch s) ≤ 16 := by
    have := Nat.and_le_right (n := fetch s) (m := 0x000F)
    rw [nOf]; omega
  rw [executeCycle_draw rnd s hop, upd15zero s.V (xOf (fetch s)), upd15zero s.V (yOf (fetch s))]
  simp only [tickTimers]
  have hvf : (upd (upd s.V 15 0) 15
      ((drawRows s.memory s.I (if yOf (fetch s) = 15 then 0 else s.V (yOf (fetch s)))
        (if xOf (fetch s) = 15 then 0 else s.V (xOf (fetch s))) (nOf (fetch s))
        (s.display, 0)).2)) 15
      = rowsColl s.memory s.I s.display
          (if yOf (fetch s) = 15 then 0 else s.V (yOf (fetch s)))
          (if xOf (fetch s) = 15 then 0 else s.V (xOf (fetch s))) (nOf (fetch s)) := by
    rw [show (upd (upd s.V 15 0) 15
        ((drawRows s.memory s.I (if yOf (fetch s) = 15 then 0 else s.V (yOf (fetch s)))
          (if xOf (fetch s) = 15 then 0 else s.V (xOf (fetch s))) (nOf (fetch s))
          (s.display, 0)).2)) 15
      = (drawRows s.memory s.I (if yOf (fetch s) = 15 then 0 else s.V (yOf (fetch s)))
          (if xOf (fetch s) = 15 then 0 else s.V (xOf (fetch s))) (nOf (fetch s))
          (s.display, 0)).2 from by simp [upd]]
    rw [drawRows_vf _ _ _ _ _ _ hn16]
    exact Nat.zero_or _
  refine ⟨?_, ?_, ?_, by trivial, by trivial⟩
  · intro r hr c hc
    exact drawRows_pixel _ _ _ _ _ _ r c hn16 hr hc
  · rw [hvf]
    have := rowsColl_le_one s.memory s.I s.display
      (if yOf (fetch s) = 15 then 0 else s.V (yOf (fetch s)))
      (if xOf (fetch s) = 15 then 0 else s.V (xOf (fetch s))) (nOf (fetch s))
    omega
  · rw [hvf]
    exact rowsColl_eq_one_iff _ _ _ _ _ _

/-- C1 witness: the amended draw description instantiated at the
concrete state c1w. -/
theorem C1_amended_witness :
    dispBit (executeCycle 0 c1w).display
        (((if yOf (fetch c1w) = 15 then 0 else c1w.V (yOf (fetch c1w))) + 0) % 32)
        (((if xOf (fetch c1w) = 15 then 0 else c1w.V (xOf (fetch c1w))) + 0) % 64)
      = dispBit c1w.display
          (((if yOf (fetch c1w) = 15 then 0 else c1w.V (yOf (fetch c1w))) + 0) % 32)
          (((if xOf (fetch c1w) = 15 then 0 else c1w.V (xOf (fetch c1w))) + 0) % 64)
        ^^^ spriteBit (c1w.memory (c1w.I + 0)) 0
    ∧ (executeCycle 0 c1w).draw = true
    ∧ (executeCycle 0 c1w).PC = (c1w.PC + 2) % 65536 :=
  ⟨(C1_amended 0 c1w (by decide) (by decide)).1 0 (by decide) 0 (by decide),
   (C1_amended 0 c1w (by decide) (by decide)).2.2.2.1,
   (C1_amended 0 c1w (by decide) (by decide)).2.2.2.2⟩

theorem upd_same (f : Nat → Nat) (i v : Nat) : upd f i v i = v := by simp [upd]

theorem upd_other (f : Nat → Nat) (i v j : Nat) (h : ¬ i = j) : upd f i v j = f j := by
  simp [upd, h]

theorem drawRows_vf0 (mem : Nat → Nat) (i0 sr sc k : Nat) (d : Nat → Nat) (hk : k ≤ 16) :
    (drawRows mem i0 sr sc k (d, 0)).2 = rowsColl mem i0 d sr sc k := by
  rw [drawRows_vf _ _ _ _ _ _ hk]
  exact Nat.zero_or _

/-- C5 (amended): executing the same Dxyn twice in succession (the
word at PC repeated at PC + 2, so V(x), V(y), I and the sprite bytes
are unchanged in between) always restores the display to its pre-draw
state, for every display - XOR is self-inverse.  The second draw does
not report no collision, though: it erases exactly the pixels the
first draw turned on, so provided no collision existed before the
first draw, V(0xF) after the second draw is 1 iff the sprite has at
least one set bit among its n rows. -/
theorem C5_amended (r1 r2 : Nat) (s : Chip8)
    (hop : opOf (fetch s) = 13)
    (hpc : s.PC + 3 < 65536)
    (hm2 : s.memory (s.PC + 2) = s.memory s.PC)
    (hm3 : s.memory (s.PC + 3) = s.memory (s.PC + 1)) :
    (executeCycle r2 (executeCycle r1 s)).display = s.display
    ∧ ((¬ ∃ r, r < nOf (fetch s) ∧ ∃ c, c < 8 ∧
          dispBit s.display
              (((if yOf (fetch s) = 15 then 0 else s.V (yOf (fetch s))) + r) % 32)
              (((if xOf (fetch s) = 15 then 0 else s.V (xOf (fetch s))) + c) % 64) = 1
          ∧ spriteBit (s.memory (s.I + r)) c = 1) →
        ((executeCycle r2 (executeCycle r1 s)).V 15 = 1 ↔
          ∃ r, r < nOf (fetch s) ∧ ∃ c, c < 8 ∧
            spriteBit (s.memory (s.I + r)) c = 1)) := by
  have hn16 : nOf (fetch s) ≤ 16 := by
    have := Nat.and_le_right (n := fetch s) (m := 0x000F)
    rw [nOf]; omega
  have hpcm : (s.PC + 2) % 65536 = s.PC + 2 := Nat.mod_eq_of_lt (by omega)
  have h1 := executeCycle_draw r1 s hop
  have h1mem : (executeCycle r1 s).memory = s.memory := by rw [h1]; rfl
  have h1I : (executeCycle r1 s).I = s.I := by rw [h1]; rfl
  have h1PC : (executeCycle r1 s).PC = (s.PC + 2) % 65536 := by rw [h1]; rfl
  have h1disp : (executeCycle r1 s).display
      = (drawRows s.memory s.I (upd s.V 15 0 (yOf (fetch s)))
          (upd s.V 15 0 (xOf (fetch s))) (nOf (fetch s)) (s.display, 0)).1 := by rw [h1]; rfl
  have h1V : (executeCycle r1 s).V
      = upd (upd s.V 15 0) 15 ((drawRows s.memory s.I (upd s.V 15 0 (yOf (fetch s)))
          (upd s.V 15 0 (xOf (fetch s))) (nOf (fetch s)) (s.display, 0)).2) := by rw [h1]; rfl
  have hfe : fetch (executeCycle r1 s) = fetch s := by
    rw [fetch, h1mem, h1PC, hpcm]
    have h23 : s.PC + 2 + 1 = s.PC + 3 := rfl
    rw [h23, hm2, hm3, fetch]
  have hop1 : opOf (fetch (executeCycle r1 s)) = 13 := by rw [hfe]; exact hop
  have hbase : ∀ z, upd (executeCycle r1 s).V 15 0 z = upd s.V 15 0 z := by
    intro z
    rw [upd15zero, upd15zero]
    by_cases h : z = 15
    · rw [if_pos h, if_pos h]
    · rw [if_neg h, if_neg h, h1V,
        upd_other _ _ _ _ (fun hh => h hh.symm), upd_other _ _ _ _ (fun hh => h hh.symm)]
  have h2 := executeCycle_draw r2 (executeCycle r1 s) hop1
  rw [hfe] at h2
  rw [hbase (yOf (fetch s)), hbase (xOf (fetch s)), h1mem, h1I, h1disp] at h2
  have h2disp : (executeCycle r2 (executeCycle r1 s)).display
      = (drawRows s.memory s.I (upd s.V 15 0 (yOf (fetch s)))
          (upd s.V 15 0 (xOf (fetch s))) (nOf (fetch s))
          ((drawRows s.memory s.I (upd s.V 15 0 (yOf (fetch s)))
            (upd s.V 15 0 (xOf (fetch s))) (nOf (fetch s)) (s.display, 0)).1, 0)).1 := by
    rw [h2]; rfl
  have h2V : (executeCycle r2 (executeCycle r1 s)).V 15
      = (drawRows s.memory s.I (upd s.V 15 0 (yOf (fetch s)))
          (upd s.V 15 0 (xOf (fetch s))) (nOf (fetch s))
          ((drawRows s.memory s.I (upd s.V 15 0 (yOf (fetch s)))
            (upd s.V 15 0 (xOf (fetch s))) (nOf (fetch s)) (s.display, 0)).1, 0)).2 := by
    rw [h2]; rfl
  constructor
  · rw [h2disp]
    funext j
    rw [drawRows_mask, drawRows_mask]
    show s.display j ^^^ _ ^^^ _ = s.display j
    rw [Nat.xor_assoc, Nat.xor_self, Nat.xor_zero]
  · intro hnc
    rw [h2V]
    rw [drawRows_vf0 _ _ _ _ _ _ hn16, rowsColl_eq_one_iff]
    constructor
    · intro h
      rcases h with ⟨r, hr, c, hc, hd, hs⟩
      exact ⟨r, hr, c, hc, hs⟩
    · intro h
      rcases h with ⟨r, hr, c, hc, hs⟩
      refine ⟨r, hr, c, hc, ?_, hs⟩
      rw [drawRows_pixel _ _ _ _ _ _ r c hn16 hr hc]
      have hd0 : dispBit s.display
          ((upd s.V 15 0 (yOf (fetch s)) + r) % 32)
          ((upd s.V 15 0 (xOf (fetch s)) + c) % 64) = 0 := by
        have hle := dispBit_le_one s.display
          ((upd s.V 15 0 (yOf (fetch s)) + r) % 32)
          ((upd s.V 15 0 (xOf (fetch s)) + c) % 64)
        rcases Nat.le_one_iff_eq_zero_or_eq_one.mp hle with h0 | h0
        · exact h0
        · exfalso
          apply hnc
          refine ⟨r, hr, c, hc, ?_, hs⟩
          rw [← upd15zero s.V (yOf (fetch s)), ← upd15zero s.V (xOf (fetch s))]
          exact h0
      show dispBit s.display _ _ ^^^ _ = 1
      rw [hd0, hs, Nat.zero_xor]

/-- C5 is refuted in its collision half: drawing the same nonzero
sprite twice XORs the pixels of the first draw off again, so the second
draw erases pixels and reports a collision.  At c5cx (D001 twice,
sprite byte 0x80, empty display) the first draw reports no collision
but the second ends with V(0xF) = 1, where the claim demands 0. -/
theorem C5_counterexample :
    opOf (fetch c5cx) = 13
    ∧ c5cx.memory (c5cx.PC + 2) = c5cx.memory c5cx.PC
    ∧ c5cx.memory (c5cx.PC + 3) = c5cx.memory (c5cx.PC + 1)
    ∧ (executeCycle 0 c5cx).V 15 = 0
    ∧ (executeCycle 0 (executeCycle 0 c5cx)).V 15 = 1 := by decide

/-- C5 witness: the amended double-draw description instantiated at
the concrete state c5cx. -/
theorem C5_amended_witness :
    (executeCycle 1 (executeCycle 0 c5cx)).display = c5cx.display
    ∧ ((executeCycle 1 (executeCycle 0 c5cx)).V 15 = 1 ↔
        ∃ r, r < nOf (fetch c5cx) ∧ ∃ c, c < 8 ∧
          spriteBit (c5cx.memory (c5cx.I + r)) c = 1) :=
  ⟨(C5_amended 0 1 c5cx (by decide) (by decide) (by decide) (by decide)).1,
   (C5_amended 0 1 c5cx (by decide) (by decide) (by decide) (by decide)).2
     (by
       rintro ⟨r, hr, c, hc, hd, hs⟩
       revert hd
       show dispBit (fun _ => 0) _ _ = 1 → False
       simp [dispBit])⟩

/-- C2 is refuted at x = 0xF (and likewise y = 0xF): 8xy4 writes the
carry into V(0xF) before the add, so 8F04 adds the carry bit, not the
old V(0xF).  At c2cx (V15 = 200, V0 = 100) V(15) ends 101, neither the
truncated sum 44 nor the carry flag 1 the claim demands. -/
theorem C2_counterexample :
    opOf (fetch c2cx) = 8 ∧ nOf (fetch c2cx) = 4 ∧ xOf (fetch c2cx) = 15
    ∧ c2cx.V 15 = 200 ∧ c2cx.V 0 = 100
    ∧ (executeCycle 0 c2cx).V 15 = 101
    ∧ (executeCycle 0 c2cx).V 15 ≠ (c2cx.V 15 + c2cx.V 0) % 256
    ∧ (executeCycle 0 c2cx).V 15 ≠ 1 := by decide

/-- C2 (amended): for a fetched 8xy4 with x and y both distinct from
0xF, executeCycle sets V(0xF) to 1 iff the pre-instruction sum
V(x) + V(y) exceeds 255 (else 0), stores the low 8 bits of that sum in
V(x), and advances PC by 2; when x or y is 0xF the carry write
precedes the add, so the add sees the flag instead. -/
theorem C2_amended (rnd : Nat) (s : Chip8)
    (hop : opOf (fetch s) = 8) (hn : nOf (fetch s) = 4)
    (hx : ¬ xOf (fetch s) = 15) (hy : ¬ yOf (fetch s) = 15) :
    ((executeCycle rnd s).V 15
      = if 255 < s.V (xOf (fetch s)) + s.V (yOf (fetch s)) then 1 else 0)
    ∧ (executeCycle rnd s).V (xOf (fetch s))
      = (s.V (xOf (fetch s)) + s.V (yOf (fetch s))) % 256
    ∧ (executeCycle rnd s).PC = (s.PC + 2) % 65536 := by
  have hw : waitingNoKey s = false := by simp [waitingNoKey, hop]
  have hV : (executeCycle rnd s).V
      = upd (upd s.V 15 (if 255 < s.V (xOf (fetch s)) + s.V (yOf (fetch s)) then 1 else 0))
          (xOf (fetch s))
          ((upd s.V 15 (if 255 < s.V (xOf (fetch s)) + s.V (yOf (fetch s)) then 1 else 0)
              (xOf (fetch s))
            + upd s.V 15 (if 255 < s.V (xOf (fetch s)) + s.V (yOf (fetch s)) then 1 else 0)
              (yOf (fetch s))) % 256) := by
    simp [executeCycle, hw, execInstr, hop, hn, tickTimers]
  have hPC : (executeCycle rnd s).PC = (s.PC + 2) % 65536 := by
    simp [executeCycle, hw, execInstr, hop, hn, tickTimers]
  refine ⟨?_, ?_, hPC⟩
  · rw [hV, upd_other _ _ _ _ hx, upd_same]
  · rw [hV, upd_same, upd_other _ _ _ _ (fun hh => hx hh.symm),
      upd_other _ _ _ _ (fun hh => hy hh.symm)]

/-- C2 witness: the amended 8xy4 description instantiated at the
concrete state c2w (8124, V1 = 200, V2 = 100). -/
theorem C2_amended_witness :
    ((executeCycle 0 c2w).V 15
      = if 255 < c2w.V (xOf (fetch c2w)) + c2w.V (yOf (fetch c2w)) then 1 else 0)
    ∧ (executeCycle 0 c2w).V (xOf (fetch c2w))
      = (c2w.V (xOf (fetch c2w)) + c2w.V (yOf (fetch c2w))) % 256
    ∧ (executeCycle 0 c2w).PC = (c2w.PC + 2) % 65536 :=
  C2_amended 0 c2w (by decide) (by decide) (by decide) (by decide)

theorem upd_self (f : Nat → Nat) (i : Nat) : upd f i (f i) = f := by
  funext j
  simp only [upd]
  by_cases h : i = j
  · rw [if_pos h, h]
  · rw [if_neg h]

theorem keyScan_none (keys : Nat → Bool) (x : Nat) (V : Nat → Nat)
    (hkeys : ∀ i, i < 16 → keys i = false) :
    ∀ k, k ≤ 16 → keyScan keys x k (V, false) = (V, false) := by
  intro k
  induction k with
  | zero => intro _; rfl
  | succ k ih =>
    intro hk
    simp only [keyScan]
    rw [ih (by omega)]
    have hk0 : keys k = false := hkeys k (by omega)
    simp [hk0, upd_self]

/-- C3 is refuted: an Fx0A wait that does not resolve returns before
the timer update, so DT and ST keep their values.  At c3cx (F00A, no
key pressed, DT = 5, ST = 7) neither timer decrements. -/
theorem C3_counterexample :
    opOf (fetch c3cx) = 15 ∧ kkOf (fetch c3cx) = 0x0A
    ∧ waitingNoKey c3cx = true
    ∧ c3cx.DT = 5 ∧ c3cx.ST = 7
    ∧ (executeCycle 0 c3cx).DT = 5 ∧ (executeCycle 0 c3cx).ST = 7 := by decide

/-- C3 (amended): on every cycle except an Fx0A wait that does not
resolve, DT and ST, as left by the executed instruction, each
decrement by 1 if nonzero and stay 0 if zero; the unresolved wait
skips the timer update entirely. -/
theorem C3_amended (rnd : Nat) (s : Chip8) (h : waitingNoKey s = false) :
    (executeCycle rnd s).DT
      = (if 0 < (execInstr rnd s).DT then (execInstr rnd s).DT - 1 else (execInstr rnd s).DT)
    ∧ (executeCycle rnd s).ST
      = (if 0 < (execInstr rnd s).ST then (execInstr rnd s).ST - 1 else (execInstr rnd s).ST) := by
  constructor <;> simp [executeCycle, h, tickTimers]

/-- C3 witness: the amended timer rule instantiated at the concrete
state c3w (instruction 6105, DT = 3, ST = 0). -/
theorem C3_amended_witness :
    (executeCycle 0 c3w).DT
      = (if 0 < (execInstr 0 c3w).DT then (execInstr 0 c3w).DT - 1 else (execInstr 0 c3w).DT)
    ∧ (executeCycle 0 c3w).ST
      = (if 0 < (execInstr 0 c3w).ST then (execInstr 0 c3w).ST - 1 else (execInstr 0 c3w).ST) :=
  C3_amended 0 c3w (by decide)

/-- C8 is refuted at x = 0xF: the overflow flag is written into V(0xF)
before I is incremented, so FF1E adds the flag value, not the old
V(0xF), to I.  At c8cx (FF1E, I = 0x100, V15 = 0x50) I stays 0x100
where the claim demands 0x150. -/
theorem C8_counterexample :
    opOf (fetch c8cx) = 15 ∧ kkOf (fetch c8cx) = 0x1E ∧ xOf (fetch c8cx) = 15
    ∧ c8cx.I = 0x100 ∧ c8cx.V 15 = 0x50
    ∧ (executeCycle 0 c8cx).I = 0x100
    ∧ (executeCycle 0 c8cx).I ≠ (c8cx.I + c8cx.V 15) % 65536 := by decide

/-- C8 (amended): for a fetched Fx1E with x distinct from 0xF,
executeCycle sets V(0xF) to 1 iff I + V(x) exceeds 0xFFF (else 0),
sets I to (I + V(x)) mod 2 to the 16, and advances PC by 2; when
x = 0xF the flag write precedes the add, so I instead grows by the
flag bit. -/
theorem C8_amended (rnd : Nat) (s : Chip8)
    (hop : opOf (fetch s) = 15) (hkk : kkOf (fetch s) = 0x1E)
    (hx : ¬ xOf (fetch s) = 15) :
    ((executeCycle rnd s).V 15 = if 0xFFF < s.I + s.V (xOf (fetch s)) then 1 else 0)
    ∧ (executeCycle rnd s).I = (s.I + s.V (xOf (fetch s))) % 65536
    ∧ (executeCycle rnd s).PC = (s.PC + 2) % 65536 := by
  have hw : waitingNoKey s = false := by simp [waitingNoKey, hkk]
  have hV : (executeCycle rnd s).V
      = upd s.V 15 (if 0xFFF < s.I + s.V (xOf (fetch s)) then 1 else 0) := by
    simp [executeCycle, hw, execInstr, hop, hkk, tickTimers]
  have hI : (executeCycle rnd s).I
      = (s.I + upd s.V 15 (if 0xFFF < s.I + s.V (xOf (fetch s)) then 1 else 0)
          (xOf (fetch s))) % 65536 := by
    simp [executeCycle, hw, execInstr, hop, hkk, tickTimers]
  have hPC : (executeCycle rnd s).PC = (s.PC + 2) % 65536 := by
    simp [executeCycle, hw, execInstr, hop, hkk, tickTimers]
  refine ⟨?_, ?_, hPC⟩
  · rw [hV, upd_same]
  · rw [hI, upd_other _ _ _ _ (fun hh => hx hh.symm)]

/-- C8 witness: the amended Fx1E description instantiated at the
concrete state c8w (F11E, I = 0x100, V1 = 0x50). -/
theorem C8_amended_witness :
    ((executeCycle 0 c8w).V 15 = if 0xFFF < c8w.I + c8w.V (xOf (fetch c8w)) then 1 else 0)
    ∧ (executeCycle 0 c8w).I = (c8w.I + c8w.V (xOf (fetch c8w))) % 65536
    ∧ (executeCycle 0 c8w).PC = (c8w.PC + 2) % 65536 :=
  C8_amended 0 c8w (by decide) (by decide) (by decide)

/-- C9 is confirmed: an Fx0A executed while no key is pressed leaves
the whole machine state unchanged, timers included, because the source
returns before the timer update and the scan loop only rewrites V(x)
with its own value. -/
theorem C9_confirmed (rnd : Nat) (s : Chip8)
    (hop : opOf (fetch s) = 15) (hkk : kkOf (fetch s) = 0x0A)
    (hkeys : ∀ i, i < 16 → s.keys i = false) :
    executeCycle rnd s = s := by
  have hscan := keyScan_none s.keys (xOf (fetch s)) s.V hkeys 16 (by omega)
  have hw : waitingNoKey s = true := by
    simp [waitingNoKey, hop, hkk, hscan]
  simp [executeCycle, hw, execInstr, hop, hkk, hscan]

/-- C9 witness: the unresolved-wait frame property instantiated at the
concrete state c9w (F00A, no key pressed, DT = 5). -/
theorem C9_confirmed_witness : executeCycle 0 c9w = c9w :=
  C9_confirmed 0 c9w (by decide) (by decide) (fun i _ => rfl)

theorem executeCycle_ret (rnd : Nat) (t : Chip8)
    (hop : opOf (fetch t) = 0) (hn : nOf (fetch t) = 14) :
    executeCycle rnd t = tickTimers { t with
      SP := (t.SP + 255) % 256,
      PC := (t.stack ((t.SP + 255) % 256) + 2) % 65536 } := by
  have hw : waitingNoKey t = false := by simp [waitingNoKey, hop]
  simp [executeCycle, hw, execInstr, hop, hn]

/-- C6 is confirmed: with SP at most 15, a 2nnn call followed
immediately by the 00EE return at the callee leaves PC at the address
after the call site and SP at its pre-call value. -/
theorem C6_confirmed (r1 r2 : Nat) (s : Chip8)
    (hop : opOf (fetch s) = 2)
    (hsp : s.SP ≤ 15)
    (hpc : s.PC < 65536)
    (hm0 : s.memory (nnnOf (fetch s)) = 0)
    (hm1 : s.memory (nnnOf (fetch s) + 1) = 0xEE) :
    (executeCycle r2 (executeCycle r1 s)).PC = (s.PC + 2) % 65536
    ∧ (executeCycle r2 (executeCycle r1 s)).SP = s.SP := by
  have hw : waitingNoKey s = false := by simp [waitingNoKey, hop]
  have h1 : executeCycle r1 s = tickTimers { s with
      stack := upd s.stack s.SP (s.PC % 65536),
      SP := (s.SP + 1) % 256,
      PC := nnnOf (fetch s) } := by
    simp [executeCycle, hw, execInstr, hop]
  have h1mem : (executeCycle r1 s).memory = s.memory := by rw [h1]; rfl
  have h1PC : (executeCycle r1 s).PC = nnnOf (fetch s) := by rw [h1]; rfl
  have h1SP : (executeCycle r1 s).SP = (s.SP + 1) % 256 := by rw [h1]; rfl
  have h1stack : (executeCycle r1 s).stack = upd s.stack s.SP (s.PC % 65536) := by rw [h1]; rfl
  have hfe : fetch (executeCycle r1 s) = 0xEE := by
    rw [fetch, h1mem, h1PC, hm0, hm1]; decide
  have hop1 : opOf (fetch (executeCycle r1 s)) = 0 := by rw [hfe]; decide
  have hn1 : nOf (fetch (executeCycle r1 s)) = 14 := by rw [hfe]; decide
  have h2 := executeCycle_ret r2 (executeCycle r1 s) hop1 hn1
  have hSP2 : ((executeCycle r1 s).SP + 255) % 256 = s.SP := by rw [h1SP]; omega
  have hPC2 : (executeCycle r2 (executeCycle r1 s)).PC
      = ((executeCycle r1 s).stack (((executeCycle r1 s).SP + 255) % 256) + 2) % 65536 := by
    rw [h2]; rfl
  have hSP3 : (executeCycle r2 (executeCycle r1 s)).SP
      = ((executeCycle r1 s).SP + 255) % 256 := by rw [h2]; rfl
  constructor
  · rw [hPC2, hSP2, h1stack, upd_same, Nat.mod_eq_of_lt hpc]
  · rw [hSP3, hSP2]

/-- C6 witness: the call-return round trip instantiated at the
concrete state c6w (2300 at 0x200, 00EE at 0x300, SP = 2). -/
theorem C6_confirmed_witness :
    (executeCycle 0 (executeCycle 0 c6w)).PC = (c6w.PC + 2) % 65536
    ∧ (executeCycle 0 (executeCycle 0 c6w)).SP = c6w.SP :=
  C6_confirmed 0 0 c6w (by decide) (by decide) (by decide) (by decide) (by decide)

/-- C7 is refuted: the dispatch ignores the low bits that the opcode
table of the spec fixes, so words outside the table can still execute.  At
c7cx the word 5121 matches no defined pattern (5xy0 requires n = 0),
yet the code runs the skip-if-equal and advances PC by 4. -/
theorem C7_counterexample :
    specDefinedOpcode (fetch c7cx) = false
    ∧ c7cx.PC = 0x200
    ∧ (executeCycle 0 c7cx).PC = c7cx.PC + 4 := by decide

/-- C7 (amended): the words on which the code executes nothing are
exactly the fall-through set of its nested dispatch: family 0 with n
outside 0 and E, family 8 with n in 8..D or F, family E with kk
outside 9E and A1, family F with kk outside the nine handled values.
On those, PC, V, I, SP, stack, memory, display, keys and the draw flag
are unchanged while DT and ST still decrement by 1 if nonzero.  Words
that merely fall outside the spec table but inside a handled family
(0nn0, 0nnE, 5xyn, 9xyn with nonzero n, Exkk variants) are executed as
the corresponding instruction instead. -/
theorem C7_amended (rnd : Nat) (s : Chip8) (h : codeFallsThrough (fetch s) = true) :
    (executeCycle rnd s).PC = s.PC
    ∧ (executeCycle rnd s).V = s.V
    ∧ (executeCycle rnd s).I = s.I
    ∧ (executeCycle rnd s).SP = s.SP
    ∧ (executeCycle rnd s).stack = s.stack
    ∧ (executeCycle rnd s).memory = s.memory
    ∧ (executeCycle rnd s).display = s.display
    ∧ (executeCycle rnd s).keys = s.keys
    ∧ (executeCycle rnd s).draw = s.draw
    ∧ (executeCycle rnd s).DT = (if 0 < s.DT then s.DT - 1 else s.DT)
    ∧ (executeCycle rnd s).ST = (if 0 < s.ST then s.ST - 1 else s.ST) := by
  have hstep : executeCycle rnd s = tickTimers s := by
    rw [codeFallsThrough] at h
    simp only [Bool.or_eq_true, Bool.and_eq_true, Bool.not_eq_true',
      decide_eq_true_eq, decide_eq_false_iff_not] at h
    rcases h with ((⟨⟨hop, hn0⟩, hnE⟩ | ⟨⟨hop, hn7⟩, hnE⟩) | ⟨⟨hop, h9E⟩, hA1⟩) |
      ⟨⟨⟨⟨⟨⟨⟨⟨⟨hop, h07⟩, h0A⟩, h15⟩, h18⟩, h1E⟩, h29⟩, h33⟩, h55⟩, h65⟩
    · have hw : waitingNoKey s = false := by simp [waitingNoKey, hop]
      simp [executeCycle, hw, execInstr, hop, hn0, hnE]
    · have hw : waitingNoKey s = false := by simp [waitingNoKey, hop]
      have e0 : ¬ nOf (fetch s) = 0 := by omega
      have e1 : ¬ nOf (fetch s) = 1 := by omega
      have e2 : ¬ nOf (fetch s) = 2 := by omega
      have e3 : ¬ nOf (fetch s) = 3 := by omega
      have e4 : ¬ nOf (fetch s) = 4 := by omega
      have e5 : ¬ nOf (fetch s) = 5 := by omega
      have e6 : ¬ nOf (fetch s) = 6 := by omega
      have e7 : ¬ nOf (fetch s) = 7 := by omega
      simp [executeCycle, hw, execInstr, hop, e0, e1, e2, e3, e4, e5, e6, e7, hnE]
    · have hw : waitingNoKey s = false := by simp [waitingNoKey, hop]
      simp [executeCycle, hw, execInstr, hop, h9E, hA1]
    · have hw : waitingNoKey s = false := by simp [waitingNoKey, h0A]
      simp [executeCycle, hw, execInstr, hop, h07, h0A, h15, h18, h1E, h29, h33, h55, h65]
  rw [hstep]
  exact ⟨rfl, rfl, rfl, rfl, rfl, rfl, rfl, rfl, rfl, rfl, rfl⟩

/-- C7 witness: the fall-through frame property instantiated at the
concrete state c7w (word 8129, DT = 3). -/
theorem C7_amended_witness :
    (executeCycle 0 c7w).PC = c7w.PC
    ∧ (executeCycle 0 c7w).V = c7w.V
    ∧ (executeCycle 0 c7w).I = c7w.I
    ∧ (executeCycle 0 c7w).SP = c7w.SP
    ∧ (executeCycle 0 c7w).stack = c7w.stack
    ∧ (executeCycle 0 c7w).memory = c7w.memory
    ∧ (executeCycle 0 c7w).display = c7w.display
    ∧ (executeCycle 0 c7w).keys = c7w.keys
    ∧ (executeCycle 0 c7w).draw = c7w.draw
    ∧ (executeCycle 0 c7w).DT = (if 0 < c7w.DT then c7w.DT - 1 else c7w.DT)
    ∧ (executeCycle 0 c7w).ST = (if 0 < c7w.ST then c7w.ST - 1 else c7w.ST) :=
  C7_amended 0 c7w (by decide)

theorem executeCycle_shr (rnd : Nat) (s : Chip8)
    (hop : opOf (fetch s) = 8) (hn : nOf (fetch s) = 6) :
    executeCycle rnd s = tickTimers { s with
      V := upd (upd s.V 15 (s.V (xOf (fetch s)) &&& 1)) (xOf (fetch s))
             (upd s.V 15 (s.V (xOf (fetch s)) &&& 1) (xOf (fetch s)) >>> 1),
      PC := (s.PC + 2) % 65536 } := by
  have hw : waitingNoKey s = false := by simp [waitingNoKey, hop]
  simp [executeCycle, hw, execInstr, hop, hn]

theorem executeCycle_shl (rnd : Nat) (s : Chip8)
    (hop : opOf (fetch s) = 8) (hn : nOf (fetch s) = 14) :
    executeCycle rnd s = tickTimers { s with
      V := upd (upd s.V 15 (s.V (xOf (fetch s)) >>> 7)) (xOf (fetch s))
             ((upd s.V 15 (s.V (xOf (fetch s)) >>> 7) (xOf (fetch s)) <<< 1) % 256),
      PC := (s.PC + 2) % 65536 } := by
  have hw : waitingNoKey s = false := by simp [waitingNoKey, hop]
  simp [executeCycle, hw, execInstr, hop, hn]

/-- C10 is refuted at x = 0xF: the flag write V(0xF) := V(x) and 1
precedes the shift of V(x), so 8F26 leaves V(0xF) = (V(15) and 1)
shifted right, which is 0, where the claim demands the shifted-out bit
(and the halved value), both 1 at V(15) = 3. -/
theorem C10_counterexample :
    opOf (fetch c10cx) = 8 ∧ nOf (fetch c10cx) = 6 ∧ xOf (fetch c10cx) = 15
    ∧ c10cx.V 15 = 3
    ∧ (executeCycle 0 c10cx).V 15 = 0
    ∧ (executeCycle 0 c10cx).V 15 ≠ c10cx.V 15 &&& 1
    ∧ (executeCycle 0 c10cx).V 15 ≠ c10cx.V 15 >>> 1 := by decide

/-- C10 (amended): the shift instructions ignore the y field — two
states agreeing outside memory whose fetched words are both 8xy6, or
both 8xyE, with the same x, produce cycles agreeing outside memory and
leave memory untouched — and for x distinct from 0xF, SHR stores
V(x) div 2 in V(x) and the shifted-out low bit V(x) mod 2 in V(0xF),
while SHL stores 2 V(x) mod 256 and the shifted-out high bit
V(x) div 128; for x = 0xF the flag write precedes the shift, so the
stated register values do not apply. -/
theorem C10_amended :
    (∀ r1 r2 : Nat, ∀ s1 s2 : Chip8, sameExceptMemory s1 s2 →
      opOf (fetch s1) = 8 → opOf (fetch s2) = 8 →
      xOf (fetch s1) = xOf (fetch s2) → nOf (fetch s1) = nOf (fetch s2) →
      (nOf (fetch s1) = 6 ∨ nOf (fetch s1) = 14) →
      sameExceptMemory (executeCycle r1 s1) (executeCycle r2 s2)
      ∧ (executeCycle r1 s1).memory = s1.memory
      ∧ (executeCycle r2 s2).memory = s2.memory)
    ∧ (∀ rnd : Nat, ∀ s : Chip8, opOf (fetch s) = 8 → nOf (fetch s) = 6 →
        ¬ xOf (fetch s) = 15 →
        (executeCycle rnd s).V (xOf (fetch s)) = s.V (xOf (fetch s)) / 2
        ∧ (executeCycle rnd s).V 15 = s.V (xOf (fetch s)) % 2
        ∧ (executeCycle rnd s).PC = (s.PC + 2) % 65536)
    ∧ (∀ rnd : Nat, ∀ s : Chip8, opOf (fetch s) = 8 → nOf (fetch s) = 14 →
        ¬ xOf (fetch s) = 15 →
        (executeCycle rnd s).V (xOf (fetch s)) = 2 * s.V (xOf (fetch s)) % 256
        ∧ (executeCycle rnd s).V 15 = s.V (xOf (fetch s)) / 128
        ∧ (executeCycle rnd s).PC = (s.PC + 2) % 65536) := by
  refine ⟨?_, ?_, ?_⟩
  · intro r1 r2 s1 s2 hsame hop1 hop2 hx12 hnn h6
    rcases hsame with ⟨hV, hDT, hST, hSP, hPC, hI, hstack, hdisp, hdraw, hkeys⟩
    rcases h6 with hn | hn
    · have hn2 : nOf (fetch s2) = 6 := by rw [← hnn]; exact hn
      rw [executeCycle_shr r1 s1 hop1 hn, executeCycle_shr r2 s2 hop2 hn2]
      unfold sameExceptMemory
      simp only [hV, hDT, hST, hSP, hPC, hI, hstack, hdisp, hdraw, hkeys, hx12]
      exact ⟨⟨rfl, rfl, rfl, rfl, rfl, rfl, rfl, rfl, rfl, rfl⟩, rfl, rfl⟩
    · have hn2 : nOf (fetch s2) = 14 := by rw [← hnn]; exact hn
      rw [executeCycle_shl r1 s1 hop1 hn, executeCycle_shl r2 s2 hop2 hn2]
      unfold sameExceptMemory
      simp only [hV, hDT, hST, hSP, hPC, hI, hstack, hdisp, hdraw, hkeys, hx12]
      exact ⟨⟨rfl, rfl, rfl, rfl, rfl, rfl, rfl, rfl, rfl, rfl⟩, rfl, rfl⟩
  · intro rnd s hop hn hx
    have h1 := executeCycle_shr rnd s hop hn
    have hV : (executeCycle rnd s).V
        = upd (upd s.V 15 (s.V (xOf (fetch s)) &&& 1)) (xOf (fetch s))
            (upd s.V 15 (s.V (xOf (fetch s)) &&& 1) (xOf (fetch s)) >>> 1) := by rw [h1]; rfl
    have hPC : (executeCycle rnd s).PC = (s.PC + 2) % 65536 := by rw [h1]; rfl
    refine ⟨?_, ?_, hPC⟩
    · rw [hV, upd_same, upd_other _ _ _ _ (fun hh => hx hh.symm),
        Nat.shiftRight_eq_div_pow]
    · rw [hV, upd_other _ _ _ _ hx, upd_same, Nat.and_one_is_mod]
  · intro rnd s hop hn hx
    have h1 := executeCycle_shl rnd s hop hn
    have hV : (executeCycle rnd s).V
        = upd (upd s.V 15 (s.V (xOf (fetch s)) >>> 7)) (xOf (fetch s))
            ((upd s.V 15 (s.V (xOf (fetch s)) >>> 7) (xOf (fetch s)) <<< 1) % 256) := by rw [h1]; rfl
    have hPC : (executeCycle rnd s).PC = (s.PC + 2) % 65536 := by rw [h1]; rfl
    refine ⟨?_, ?_, hPC⟩
    · rw [hV, upd_same, upd_other _ _ _ _ (fun hh => hx hh.symm), Nat.shiftLeft_eq]
      rw [pow_one, Nat.mul_comm]
    · rw [hV, upd_other _ _ _ _ hx, upd_same, Nat.shiftRight_eq_div_pow]

/-- C10 witness: the y-independence applied to the concrete pair c10a,
c10b (8126 versus 8136) and the SHR and SHL register effects applied
at c10a and c10c. -/
theorem C10_amended_witness :
    (sameExceptMemory (executeCycle 0 c10a) (executeCycle 0 c10b)
      ∧ (executeCycle 0 c10a).memory = c10a.memory
      ∧ (executeCycle 0 c10b).memory = c10b.memory)
    ∧ ((executeCycle 0 c10a).V (xOf (fetch c10a)) = c10a.V (xOf (fetch c10a)) / 2
      ∧ (executeCycle 0 c10a).V 15 = c10a.V (xOf (fetch c10a)) % 2
      ∧ (executeCycle 0 c10a).PC = (c10a.PC + 2) % 65536)
    ∧ ((executeCycle 0 c10c).V (xOf (fetch c10c)) = 2 * c10c.V (xOf (fetch c10c)) % 256
      ∧ (executeCycle 0 c10c).V 15 = c10c.V (xOf (fetch c10c)) / 128
      ∧ (executeCycle 0 c10c).PC = (c10c.PC + 2) % 65536) :=
  ⟨C10_amended.1 0 0 c10a c10b ⟨rfl, rfl, rfl, rfl, rfl, rfl, rfl, rfl, rfl, rfl⟩
      (by decide) (by decide) (by decide) (by decide) (Or.inl (by decide)),
   C10_amended.2.1 0 c10a (by decide) (by decide) (by decide),
   C10_amended.2.2 0 c10c (by decide) (by decide) (by decide)⟩

/-- C4 shows a code bug: the claim (and the own comment of the source,
which says the value of the pressed key is stored) requires V(x) to
receive the index of the pressed key, but the scan loop latches on the
sticky keyPressed flag instead of keys(i), so every iteration after
the first pressed key overwrites V(x) with the loop index, leaving 15
whenever any key is pressed.  At c4bug (F00A, exactly key 3 pressed)
V(0) becomes 15 instead of 3; PC does advance by 2 exactly once. -/
theorem C4_code_bug :
    opOf (fetch c4bug) = 15 ∧ kkOf (fetch c4bug) = 0x0A
    ∧ (List.range 16).filter (fun i => c4bug.keys i) = [3]
    ∧ (executeCycle 0 c4bug).V (xOf (fetch c4bug)) = 15
    ∧ (executeCycle 0 c4bug).V (xOf (fetch c4bug)) ≠ 3
    ∧ (executeCycle 0 c4bug).PC = c4bug.PC + 2 := by decide
